import Mathlib

/-!
Verification development for the aether-sync repository.

The definitions below are a shallow embedding of the multi-agent world
simulation found in the repository:

* `aether_enhanced.py` (`AetherEnhanced`, its `Agent`, `Item`, `Territory`,
  `execute_action`, `check_territory`, `chat`, `register_agent`) — the main
  "enhanced" variant;
* `aether_full.py` (`AetherWorld.broadcast`) — the "full" variant's chat
  overlay;
* `aether_server.py` (`AetherMCPServer.register_agent`) — the MCP server's
  agent registry;
* `multi_agent_test.py` (`AetherOrchestrator.check_interactions`) — the
  interaction check;
* `aether_final.py` (`SmartAgent.smart_move`) — the smart-movement variant.

Modelling conventions:
* Python `int` is modelled as `Int` (wallets, coordinates) or `Nat`
  (counters that the code never decrements below zero: xp, level, actions).
* Python dicts keyed by agent name are modelled as insertion-ordered lists;
  `dict[name] = v` replaces the value in place when the key is present and
  appends otherwise, `dict.get`/`in` is first-match lookup.
* Randomness is externalized: each random draw of the code becomes an
  explicit argument (the random item type of `search`, the price
  perturbation of `offer_trade`, the two power rolls of `challenge`, the
  spawn coordinates and wallet of `register_agent`, the index drawn by
  `random.choice`/`random.choices`).  `random.choices` with the positive
  weights used by `smart_move` has all four directions in its support, so
  an arbitrary index is a faithful model of one draw.
* The territory tax rate `0.05` (a Python float) is modelled exactly as the
  rational `5/100`: the code computes `int(wallet * 0.05)`, which on the
  non-negative wallets the program maintains is `wallet * 5 / 100` with
  integer (floor) division.
* Wall-clock timestamps (`datetime.now()`) are external and display-only;
  they are omitted from chat entries.  Chat message texts are abbreviated
  display strings; no claim depends on their exact wording.
-/

/-! ## Data model (aether_enhanced.py) -/

/-- `ItemType` enum of `aether_enhanced.py`. -/
inductive ItemType where
  | potion | pokeball | goldNugget | rareCandy | landDeed | mysteryBox
deriving DecidableEq, Repr, Fintype

/-- `Item` dataclass of `aether_enhanced.py`. -/
structure Item where
  type : ItemType
  quantity : Int := 1
  owner : String := ""
  value : Int := 10
deriving DecidableEq, Repr

/-- `Territory` dataclass of `aether_enhanced.py`; `tax_rate : float = 0.05`
is modelled as the percent numerator `taxRatePct : Nat = 5` (rate = pct/100). -/
structure Territory where
  x : Int
  y : Int
  owner : String
  name : String
  value : Int := 100
  taxRatePct : Nat := 5
deriving DecidableEq, Repr

/-- `Agent` dataclass of `aether_enhanced.py`. -/
structure Agent where
  name : String
  personality : String
  x : Int := 6
  y : Int := 4
  wallet : Int := 100
  inventory : List Item := []
  actions : Nat := 0
  reputation : Int := 50
  guild : Option String := none
  level : Nat := 1
  xp : Nat := 0
deriving DecidableEq, Repr

/-- One entry of `AetherEnhanced.chat_history` (timestamp omitted, external). -/
structure ChatEntry where
  agent : String
  text : String
  type : String
  tick : Nat
deriving DecidableEq, Repr

/-- The mutable state of an `AetherEnhanced` world. -/
structure World where
  agents : List Agent := []
  territories : List Territory := []
  chatHistory : List ChatEntry := []
  tick : Nat := 0
  marketPrices : ItemType → Int := fun _ => 0

/-- Initial `market_prices` dict of `AetherEnhanced.__init__`. -/
def initMarket : ItemType → Int
  | .potion => 20
  | .pokeball => 50
  | .goldNugget => 100
  | .rareCandy => 200
  | .landDeed => 150
  | .mysteryBox => 75

/-- The random draws consumed by one `execute_action` call. -/
structure Rng where
  searchType : ItemType := .potion  -- random.choice(list(ItemType)) in `search`
  tradeDelta : Int := 0             -- random.randint(-5, 5) in `offer_trade`
  powRoll : Int := 1                -- random.randint(1, 10) for the actor in `challenge`
  targetRoll : Int := 1             -- random.randint(1, 10) for the target in `challenge`
deriving DecidableEq, Repr

/-! ## Dict primitives over the agent registry -/

/-- `self.agents[name]` / `name in self.agents` lookup (first match). -/
def findAgent (w : World) (n : String) : Option Agent :=
  w.agents.find? (fun a => a.name == n)

/-- In-place mutation of the dict entry named `n` (Python mutates the
`Agent` object stored in the dict). -/
def updateAgent (w : World) (n : String) (f : Agent → Agent) : World :=
  { w with agents := w.agents.map (fun a => if a.name = n then f a else a) }

/-- `self.agents[name] = agent`: replace in place if present, append if new. -/
def dictInsert (as : List Agent) (n : String) (v : Agent) : List Agent :=
  if as.any (fun a => a.name == n) then
    as.map (fun a => if a.name = n then v else a)
  else
    as ++ [v]

/-! ## Chat (AetherEnhanced.chat) -/

/-- `AetherEnhanced.chat`: append the entry, then drop the oldest entry when
the history holds more than 30 messages (`if len(...) > 30: pop(0)`). -/
def chat (w : World) (agentName message msgType : String) : World :=
  let entry : ChatEntry := ⟨agentName, message, msgType, w.tick⟩
  let h := w.chatHistory ++ [entry]
  { w with chatHistory := if 30 < h.length then h.drop 1 else h }

/-! ## String-action parsing helpers

`execute_action` dispatches on string-encoded actions with
`str.startswith`, `str.split()` and slicing.  These are embedded over the
character lists of the strings so that every parse is a plain structural
recursion. -/

/-- `p` is a leading segment of `s` (character-list version of
`str.startswith`, arguments: pattern, then string). -/
def leadsWith : List Char → List Char → Bool
  | [], _ => true
  | _ :: _, [] => false
  | c :: cs, d :: ds => c = d && leadsWith cs ds

/-- `action.startswith(pat)`. -/
def startsWithStr (pat s : String) : Bool :=
  leadsWith pat.data s.data

/-- Accumulator pass of `str.split()`: split on spaces, discarding empties. -/
def wordsAux : List Char → List Char → List (List Char)
  | [], [] => []
  | [], cur => [cur.reverse]
  | c :: cs, cur =>
    if c = ' ' then
      if cur = [] then wordsAux cs [] else cur.reverse :: wordsAux cs []
    else
      wordsAux cs (c :: cur)

/-- `action.split()` (the actions of this code are space-separated). -/
def wordsOf (s : String) : List String :=
  (wordsAux s.data []).map (fun cs => String.mk cs)

/-- `action.split()[-1]`. -/
def lastWord (s : String) : String :=
  (wordsOf s).getLastD ""

/-- `action.split()[1] if len(action.split()) > 1 else None`. -/
def secondWord (s : String) : Option String :=
  (wordsOf s)[1]?

/-! ## Action branches of AetherEnhanced.execute_action -/

/-- The clamped position update of the `move` branch. -/
def moveStepPos (a : Agent) (direction : String) : Agent :=
  if direction = "up" then { a with y := max 4 (a.y - 1) }
  else if direction = "down" then { a with y := min 11 (a.y + 1) }
  else if direction = "left" then { a with x := max 4 (a.x - 1) }
  else if direction = "right" then { a with x := min 11 (a.x + 1) }
  else a

/-- `int(agent.wallet * terr.tax_rate)` with `tax_rate = pct/100`; on the
non-negative wallets the program maintains this is floor division. -/
def taxOf (wallet : Int) (pct : Nat) : Int :=
  wallet * (pct : Int) / 100

/-- Body of the `for terr in self.territories` loop of
`AetherEnhanced.check_territory`, for one territory. -/
def checkTerritoryStep (actorName : String) (w : World) (t : Territory) : World :=
  match findAgent w actorName with
  | none => w
  | some a =>
    if t.x = a.x ∧ t.y = a.y then
      if t.owner ≠ a.name then
        let tax := taxOf a.wallet t.taxRatePct
        let w1 := updateAgent w actorName (fun b => { b with wallet := b.wallet - tax })
        let w2 :=
          if (findAgent w1 t.owner).isSome then
            updateAgent w1 t.owner (fun b => { b with wallet := b.wallet + tax })
          else w1
        chat w2 actorName "Paid tax" "system"
      else w
    else w

/-- `AetherEnhanced.check_territory`. -/
def checkTerritory (w : World) (actorName : String) : World :=
  w.territories.foldl (checkTerritoryStep actorName) w

/-- The `move` branch of `execute_action`: clamp, bump counters, level-up
check (reset xp, +50 gold), periodic movement announcement, territory check. -/
def moveAction (w : World) (actorName direction : String) : World :=
  match findAgent w actorName with
  | none => w
  | some agent =>
    let a1 := moveStepPos agent direction
    let a2 := { a1 with actions := a1.actions + 1, xp := a1.xp + 1 }
    let a3 :=
      if a2.level * 10 ≤ a2.xp then
        { a2 with level := a2.level + 1, xp := 0, wallet := a2.wallet + 50 }
      else a2
    let w1 := updateAgent w actorName (fun _ => a3)
    let w2 :=
      if a2.level * 10 ≤ a2.xp then chat w1 actorName "Leveled up" "levelup" else w1
    let w3 :=
      if a3.actions % 5 = 0 then chat w2 actorName "Moving" "movement" else w2
    checkTerritory w3 actorName

/-- The `say` branch: `self.chat(agent.name, action[4:], "chat")`. -/
def sayAction (w : World) (actorName action : String) : World :=
  chat w actorName (action.drop 4) "chat"

/-- The `search` branch: append a found item priced at the market, +5 xp
(note: no level-up check in this branch), log a loot event. -/
def searchAction (w : World) (actorName : String) (foundType : ItemType) : World :=
  match findAgent w actorName with
  | none => w
  | some agent =>
    let item : Item := ⟨foundType, 1, agent.name, w.marketPrices foundType⟩
    let w1 := updateAgent w actorName
      (fun b => { b with inventory := b.inventory ++ [item], xp := b.xp + 5 })
    chat w1 actorName "Found item" "loot"

/-- The `buy_land` branch. -/
def buyLandAction (w : World) (actorName : String) : World :=
  match findAgent w actorName with
  | none => w
  | some agent =>
    if 150 ≤ agent.wallet then
      let terr : Territory := { x := agent.x, y := agent.y, owner := agent.name
                                name := agent.name ++ " Land" }
      let deed : Item := ⟨.landDeed, 1, agent.name, 150⟩
      let w1 := updateAgent w actorName
        (fun b => { b with wallet := b.wallet - 150, inventory := b.inventory ++ [deed] })
      let w2 := { w1 with territories := w1.territories ++ [terr] }
      chat w2 actorName "Bought land" "system"
    else w

/-- The `offer_trade` branch: needs a target token, a registered target, a
non-empty actor inventory and `target.wallet >= 30`; then the first item is
sold at `market + delta` if the target can afford it. -/
def offerTradeAction (w : World) (actorName : String) (targetName? : Option String)
    (delta : Int) : World :=
  match targetName? with
  | none => w
  | some tn =>
    match findAgent w tn with
    | none => w
    | some target =>
      match findAgent w actorName with
      | none => w
      | some agent =>
        match agent.inventory with
        | [] => w
        | item :: _ =>
          if 30 ≤ target.wallet then
            let price := w.marketPrices item.type + delta
            if price ≤ target.wallet then
              let w1 := updateAgent w tn (fun b => { b with wallet := b.wallet - price })
              let w2 := updateAgent w1 actorName (fun b => { b with wallet := b.wallet + price })
              let item' := { item with owner := tn }
              let w3 := updateAgent w2 actorName (fun b => { b with inventory := b.inventory.drop 1 })
              let w4 := updateAgent w3 tn (fun b => { b with inventory := b.inventory ++ [item'] })
              chat w4 actorName "Sold item" "trade"
            else w
          else w

/-- The `challenge` branch: compare `randint(1,10) + level` rolls; the winner
takes `min(loser.wallet // 10, cap)` gold (cap 50 on a win, 30 on a loss). -/
def challengeAction (w : World) (actorName : String) (targetName? : Option String)
    (r1 r2 : Int) : World :=
  match targetName? with
  | none => w
  | some tn =>
    match findAgent w tn with
    | none => w
    | some target =>
      match findAgent w actorName with
      | none => w
      | some agent =>
        let power := r1 + (agent.level : Int)
        let targetPower := r2 + (target.level : Int)
        if targetPower < power then
          let winnings := min (target.wallet / 10) 50
          let w1 := updateAgent w tn (fun b => { b with wallet := b.wallet - winnings })
          let w2 := updateAgent w1 actorName (fun b => { b with wallet := b.wallet + winnings })
          chat w2 actorName "Won battle" "battle"
        else
          let loss := min (agent.wallet / 10) 30
          let w1 := updateAgent w actorName (fun b => { b with wallet := b.wallet - loss })
          let w2 := updateAgent w1 tn (fun b => { b with wallet := b.wallet + loss })
          chat w2 actorName "Lost battle" "battle"

/-- `AetherEnhanced.execute_action`: dispatch on the action string exactly as
the if/elif chain of the source does. -/
def executeAction (w : World) (actorName action : String) (rng : Rng) : World :=
  if startsWithStr "move" action then
    moveAction w actorName (lastWord action)
  else if startsWithStr "say" action then
    sayAction w actorName action
  else if action = "search" then
    searchAction w actorName rng.searchType
  else if action = "buy_land" then
    buyLandAction w actorName
  else if startsWithStr "offer_trade" action then
    offerTradeAction w actorName (secondWord action) rng.tradeDelta
  else if startsWithStr "challenge" action then
    challengeAction w actorName (secondWord action) rng.powRoll rng.targetRoll
  else
    w

/-- `AetherEnhanced.register_agent`; `rx`, `ry`, `rw` are the results of
`random.randint(4, 8)`, `random.randint(3, 7)` and `random.randint(0, 100)`. -/
def registerAgent (w : World) (name personality : String) (rx ry rw : Int) : World :=
  let agent : Agent := { name := name, personality := personality
                         x := rx, y := ry, wallet := 100 + rw }
  let w1 := { w with agents := dictInsert w.agents name agent }
  chat w1 "system" "enters Kanto-Prime" "join"

/-- The market fluctuation of `tick_world` (every 10 ticks):
`max(10, price + change)` per item type, `change = randint(-2, 5)`. -/
def marketFluct (prices : ItemType → Int) (change : ItemType → Int) : ItemType → Int :=
  fun t => max 10 (prices t + change t)

/-- A fresh `AetherEnhanced()` world. -/
def initWorld : World :=
  { agents := [], territories := [], chatHistory := [], tick := 0
    marketPrices := initMarket }

/-! ## aether_full.py: AetherWorld.broadcast -/

/-- One entry of `AetherWorld.chat_overlay` (the `[timestamp]` prefix of the
formatted text is external and display-only, so `text` holds the message). -/
structure FullEntry where
  text : String
  type : String
deriving DecidableEq, Repr

/-- `AetherWorld.broadcast`: append, then drop the oldest entry when the
overlay holds more than 20 messages. -/
def broadcast (overlay : List FullEntry) (message msgType : String) : List FullEntry :=
  let h := overlay ++ [⟨message, msgType⟩]
  if 20 < h.length then h.drop 1 else h

/-! ## aether_server.py: AetherMCPServer.register_agent -/

/-- `Agent` dataclass of `aether_server.py`. -/
structure SAgent where
  name : String
  x : Int := 0
  y : Int := 0
  mapId : Int := 0
  lastSeen : String := ""
  actionCount : Nat := 0
deriving DecidableEq, Repr

/-- `AetherMCPServer.register_agent`: create the entry only when the name is
absent, then refresh its position fields from the emulator memory read
(`px`, `py`, `pm`) and its `last_seen` timestamp (`ts`, external clock);
returns the registry together with the `success` flag of the reply dict
(always `true`: no error path exists). -/
def serverRegister (agents : List SAgent) (name : String) (px py pm : Int)
    (ts : String) : List SAgent × Bool :=
  let ags :=
    if agents.any (fun a => a.name == name) then agents
    else agents ++ [{ name := name }]
  let ags' := ags.map (fun a =>
    if a.name = name then { a with x := px, y := py, mapId := pm, lastSeen := ts } else a)
  (ags', true)

/-! ## multi_agent_test.py: AetherOrchestrator.check_interactions -/

/-- `Agent` dataclass of `multi_agent_test.py`. -/
structure OAgent where
  name : String
  personality : String
  x : Int := 0
  y : Int := 0
  mapId : Int := 0
  actions : Nat := 0
  inventory : List String := []
deriving DecidableEq, Repr

/-- The `AGENT_INTERACTED` / `"MET"` log entry emitted by
`check_interactions` (timestamp/tick fields are orthogonal and omitted). -/
structure MetEvent where
  agent1 : String
  agent2 : String
  x : Int
  y : Int
deriving DecidableEq, Repr

/-- The Manhattan distance `abs(a1.x - a2.x) + abs(a1.y - a2.y)`. -/
def odist (a b : OAgent) : Nat :=
  (a.x - b.x).natAbs + (a.y - b.y).natAbs

/-- Inner loop of `check_interactions`: the events `a` produces against the
agents listed after it. -/
def pairMet (a : OAgent) (bs : List OAgent) : List MetEvent :=
  bs.filterMap (fun b =>
    if odist a b = 0 then some ⟨a.name, b.name, a.x, a.y⟩ else none)

/-- `AetherOrchestrator.check_interactions`: every unordered pair `(i, j)`
with `i < j` is examined once; co-located pairs log one MET event. -/
def checkInteractions : List OAgent → List MetEvent
  | [] => []
  | a :: rest => pairMet a rest ++ checkInteractions rest

/-- Whether a MET event is about the (unordered) pair of names `n1`, `n2`. -/
def aboutPair (n1 n2 : String) (e : MetEvent) : Bool :=
  (e.agent1 == n1 && e.agent2 == n2) || (e.agent1 == n2 && e.agent2 == n1)

/-! ## aether_final.py: SmartAgent.smart_move -/

/-- The four movement directions. -/
def directions : List String := ["up", "down", "left", "right"]

/-- The per-agent movement state of `SmartAgent` (the emulator handle and
name/role are external). -/
structure SmartState where
  lastDirection : Option String := none
  stuckCount : Nat := 0
  actions : Nat := 0
deriving DecidableEq, Repr

/-- The `perpendicular` table of `smart_move` (`.get(last, directions)`). -/
def perpendicularOf : String → List String
  | "up" => ["left", "right"]
  | "down" => ["left", "right"]
  | "left" => ["up", "down"]
  | "right" => ["up", "down"]
  | _ => directions

/-- `SmartAgent.smart_move`.  `choice` is the random draw, modelled as an
index into the list the code draws from: the weighted `random.choices` of
the else-branch uses weights 25/25/25/5, all positive, so its support is all
of `directions` and an arbitrary index is a faithful model of one draw. -/
def smartMove (st : SmartState) (choice : Nat) : String × SmartState :=
  match st.lastDirection with
  | some d =>
    if 3 < st.stuckCount then
      let cs := perpendicularOf d
      let dir := cs.getD (choice % cs.length) "up"
      (dir, { st with lastDirection := some dir, stuckCount := 0 })
    else
      let dir := directions.getD (choice % directions.length) "up"
      (dir, { st with lastDirection := some dir })
  | none =>
    let dir := directions.getD (choice % directions.length) "up"
    (dir, { st with lastDirection := some dir })

/-- `SmartAgent.execute`: one move (button choreography external); note that
`stuck_count` is not touched here or anywhere outside `smart_move`. -/
def smartExecute (st : SmartState) (choice : Nat) : String × SmartState :=
  let (a, st') := smartMove st choice
  (a, { st' with actions := st'.actions + 1 })

/-- A sequence of `execute` calls from a given state. -/
def smartRun (st : SmartState) (choices : List Nat) : SmartState :=
  choices.foldl (fun s c => (smartExecute s c).2) st

/-! ## Invariant vocabulary -/

/-- Every registered agent has a non-negative wallet. -/
def WalletsNonneg (w : World) : Prop := ∀ a ∈ w.agents, 0 ≤ a.wallet

/-- Every market price is at least 5 (the program keeps prices at least 10:
they start at 20..200 and the fluctuation clamps at `max(10, ...)`; 5 is
what is needed for trade prices `price = market + randint(-5,5)` to stay
non-negative). -/
def MarketOK (w : World) : Prop := ∀ t, 5 ≤ w.marketPrices t

/-- Agent names are unique — the registry is a dict keyed by name. -/
def NamesNodup (w : World) : Prop := (w.agents.map (fun a => a.name)).Nodup

/-- Every territory's tax rate is at most 100% (the program only ever
creates territories at the default 5%). -/
def TaxRatesOK (w : World) : Prop := ∀ t ∈ w.territories, t.taxRatePct ≤ 100

/-- The state invariant the program maintains on its worlds. -/
def WorldOK (w : World) : Prop :=
  WalletsNonneg w ∧ MarketOK w ∧ NamesNodup w ∧ TaxRatesOK w

/-! ## Basic lemmas about the primitives -/

theorem chat_agents (w : World) (a m t : String) : (chat w a m t).agents = w.agents := rfl

theorem chat_territories (w : World) (a m t : String) :
    (chat w a m t).territories = w.territories := rfl

theorem chat_marketPrices (w : World) (a m t : String) :
    (chat w a m t).marketPrices = w.marketPrices := rfl

theorem chat_tick (w : World) (a m t : String) : (chat w a m t).tick = w.tick := rfl

theorem updateAgent_territories (w : World) (n : String) (f : Agent → Agent) :
    (updateAgent w n f).territories = w.territories := rfl

theorem updateAgent_chatHistory (w : World) (n : String) (f : Agent → Agent) :
    (updateAgent w n f).chatHistory = w.chatHistory := rfl

theorem updateAgent_marketPrices (w : World) (n : String) (f : Agent → Agent) :
    (updateAgent w n f).marketPrices = w.marketPrices := rfl

theorem updateAgent_tick (w : World) (n : String) (f : Agent → Agent) :
    (updateAgent w n f).tick = w.tick := rfl

theorem findAgent_mem {w : World} {n : String} {a : Agent}
    (h : findAgent w n = some a) : a ∈ w.agents :=
  List.mem_of_find?_eq_some h

theorem findAgent_name {w : World} {n : String} {a : Agent}
    (h : findAgent w n = some a) : a.name = n := by
  have := List.find?_some h
  simpa using this

/-- Looking up after an in-place, name-preserving update: the result is the
old result with the update applied when the names match. -/
theorem findAgent_updateAgent (w : World) (n m : String) (f : Agent → Agent)
    (hf : ∀ a, (f a).name = a.name) :
    findAgent (updateAgent w n f) m =
      (findAgent w m).map (fun a => if a.name = n then f a else a) := by
  unfold findAgent updateAgent
  rw [List.find?_map]
  have hpred : ((fun a : Agent => a.name == m) ∘ fun a => if a.name = n then f a else a)
      = (fun a : Agent => a.name == m) := by
    funext a
    by_cases h : a.name = n <;> simp [Function.comp, h, hf]
  rw [hpred]

/-- With unique names, the found agent is the only one with its name. -/
theorem find?_name_unique : ∀ {l : List Agent} {n : String} {a : Agent},
    (l.map (fun a => a.name)).Nodup →
    l.find? (fun a => a.name == n) = some a →
    ∀ b ∈ l, b.name = n → b = a := by
  intro l
  induction l with
  | nil => intro n a _ h; simp at h
  | cons c rest ih =>
    intro n a hnd h b hb hbn
    rw [List.map_cons, List.nodup_cons] at hnd
    rw [List.find?_cons] at h
    by_cases hc : (c.name == n) = true
    · rw [hc] at h
      obtain rfl : c = a := Option.some.inj h
      rcases List.mem_cons.mp hb with rfl | hbr
      · rfl
      · exfalso
        apply hnd.1
        have hmem : b.name ∈ rest.map (fun a => a.name) :=
          List.mem_map_of_mem (fun a => a.name) hbr
        rw [hbn] at hmem
        rw [beq_iff_eq.mp hc]
        exact hmem
    · rw [Bool.not_eq_true] at hc
      rw [hc] at h
      rcases List.mem_cons.mp hb with rfl | hbr
      · exact absurd (beq_iff_eq.mpr hbn) (by simp [hc])
      · exact ih hnd.2 h b hbr hbn

theorem findAgent_unique {w : World} {n : String} {a : Agent}
    (hnd : NamesNodup w) (h : findAgent w n = some a) :
    ∀ b ∈ w.agents, b.name = n → b = a :=
  find?_name_unique hnd h

/-- In-place name-preserving updates keep the name sequence. -/
theorem updateAgent_map_name (w : World) (n : String) (f : Agent → Agent)
    (hf : ∀ a, (f a).name = a.name) :
    (updateAgent w n f).agents.map (fun a => a.name)
      = w.agents.map (fun a => a.name) := by
  unfold updateAgent
  simp only [List.map_map]
  refine List.map_congr_left (fun a _ => ?_)
  by_cases h : a.name = n <;> simp [Function.comp, h, hf]

theorem namesNodup_updateAgent {w : World} {n : String} {f : Agent → Agent}
    (hf : ∀ a, (f a).name = a.name) (hnd : NamesNodup w) :
    NamesNodup (updateAgent w n f) := by
  unfold NamesNodup
  rw [updateAgent_map_name w n f hf]
  exact hnd

theorem walletsNonneg_updateAgent {w : World} {n : String} {f : Agent → Agent}
    (hw : WalletsNonneg w)
    (hf : ∀ a ∈ w.agents, a.name = n → 0 ≤ (f a).wallet) :
    WalletsNonneg (updateAgent w n f) := by
  intro b hb
  unfold updateAgent at hb
  simp only [List.mem_map] at hb
  obtain ⟨a, ha, rfl⟩ := hb
  by_cases h : a.name = n
  · simpa [h] using hf a ha h
  · simpa [h] using hw a ha

/-- An update that does not touch wallets preserves non-negativity. -/
theorem walletsNonneg_updateAgent_of_wallet_eq {w : World} (n : String)
    (f : Agent → Agent) (hw : WalletsNonneg w)
    (hf : ∀ a, (f a).wallet = a.wallet) :
    WalletsNonneg (updateAgent w n f) :=
  walletsNonneg_updateAgent hw (fun a ha _ => (hf a) ▸ hw a ha)

/-- A credit of a non-negative amount preserves non-negativity. -/
theorem walletsNonneg_credit {w : World} (n : String) {c : Int}
    (hw : WalletsNonneg w) (hc : 0 ≤ c) :
    WalletsNonneg (updateAgent w n (fun b => { b with wallet := b.wallet + c })) :=
  walletsNonneg_updateAgent hw (fun a ha _ => add_nonneg (hw a ha) hc)

theorem taxOf_nonneg {wallet : Int} (pct : Nat) (hw : 0 ≤ wallet) :
    0 ≤ taxOf wallet pct :=
  Int.ediv_nonneg (mul_nonneg hw (Int.natCast_nonneg pct)) (by norm_num)

theorem taxOf_le {wallet : Int} {pct : Nat} (hw : 0 ≤ wallet) (hp : pct ≤ 100) :
    taxOf wallet pct ≤ wallet := by
  unfold taxOf
  calc wallet * (pct : Int) / 100 ≤ wallet * 100 / 100 := by
        apply Int.ediv_le_ediv (by norm_num)
        exact mul_le_mul_of_nonneg_left (by exact_mod_cast hp) hw
    _ = wallet := Int.mul_ediv_cancel wallet (by norm_num)

/-! ## Preservation of the state invariant by the economy actions -/

theorem worldOK_offerTrade {w : World} (actor : String) (tn? : Option String)
    {d : Int} (hOK : WorldOK w) (hd : -5 ≤ d) :
    WorldOK (offerTradeAction w actor tn? d) := by
  obtain ⟨hw, hm, hnd, htr⟩ := hOK
  unfold offerTradeAction
  cases tn? with
  | none => exact ⟨hw, hm, hnd, htr⟩
  | some tn =>
  dsimp only
  cases hT : findAgent w tn with
  | none => exact ⟨hw, hm, hnd, htr⟩
  | some T =>
    dsimp only
    cases hA : findAgent w actor with
    | none => exact ⟨hw, hm, hnd, htr⟩
    | some A =>
      dsimp only
      cases hinv : A.inventory with
      | nil => exact ⟨hw, hm, hnd, htr⟩
      | cons item rest =>
        dsimp only
        by_cases h30 : (30 : Int) ≤ T.wallet
        · by_cases hp : w.marketPrices item.type + d ≤ T.wallet
          · simp only [if_pos h30, if_pos hp]
            have hprice : 0 ≤ w.marketPrices item.type + d := by
              have := hm item.type; omega
            have h1 : WalletsNonneg (updateAgent w tn
                (fun b => { b with wallet := b.wallet - (w.marketPrices item.type + d) })) := by
              apply walletsNonneg_updateAgent hw
              intro b hb hbn
              have hbT : b = T := findAgent_unique hnd hT b hb hbn
              subst hbT
              simpa using hp
            have h2 : WalletsNonneg (updateAgent (updateAgent w tn
                (fun b => { b with wallet := b.wallet - (w.marketPrices item.type + d) })) actor
                (fun b => { b with wallet := b.wallet + (w.marketPrices item.type + d) })) :=
              walletsNonneg_credit actor h1 hprice
            have h3 := walletsNonneg_updateAgent_of_wallet_eq actor
              (fun b => { b with inventory := b.inventory.drop 1 }) h2 (fun a => rfl)
            have h4 := walletsNonneg_updateAgent_of_wallet_eq tn
              (fun b => { b with inventory := b.inventory ++ [{ item with owner := tn }] })
              h3 (fun a => rfl)
            refine ⟨h4, hm, ?_, htr⟩
            exact namesNodup_updateAgent (fun a => rfl) (namesNodup_updateAgent (fun a => rfl)
              (namesNodup_updateAgent (fun a => rfl) (namesNodup_updateAgent (fun a => rfl) hnd)))
          · simp only [if_pos h30, if_neg hp]
            exact ⟨hw, hm, hnd, htr⟩
        · simp only [if_neg h30]
          exact ⟨hw, hm, hnd, htr⟩

theorem worldOK_challenge {w : World} (actor : String) (tn? : Option String)
    (r1 r2 : Int) (hOK : WorldOK w) :
    WorldOK (challengeAction w actor tn? r1 r2) := by
  obtain ⟨hw, hm, hnd, htr⟩ := hOK
  unfold challengeAction
  cases tn? with
  | none => exact ⟨hw, hm, hnd, htr⟩
  | some tn =>
  dsimp only
  cases hT : findAgent w tn with
  | none => exact ⟨hw, hm, hnd, htr⟩
  | some T =>
    dsimp only
    cases hA : findAgent w actor with
    | none => exact ⟨hw, hm, hnd, htr⟩
    | some A =>
      dsimp only
      by_cases hpow : r2 + (T.level : Int) < r1 + (A.level : Int)
      · simp only [if_pos hpow]
        have hTw : 0 ≤ T.wallet := hw T (findAgent_mem hT)
        have hwin0 : 0 ≤ min (T.wallet / 10) 50 :=
          le_min (Int.ediv_nonneg hTw (by norm_num)) (by norm_num)
        have hwinle : min (T.wallet / 10) 50 ≤ T.wallet :=
          le_trans (min_le_left _ _) (Int.ediv_le_self 10 hTw)
        have h1 : WalletsNonneg (updateAgent w tn
            (fun b => { b with wallet := b.wallet - min (T.wallet / 10) 50 })) := by
          apply walletsNonneg_updateAgent hw
          intro b hb hbn
          have hbT : b = T := findAgent_unique hnd hT b hb hbn
          subst hbT
          simpa using hwinle
        have h2 := walletsNonneg_credit actor h1 hwin0
        refine ⟨h2, hm, ?_, htr⟩
        exact namesNodup_updateAgent (fun a => rfl) (namesNodup_updateAgent (fun a => rfl) hnd)
      · simp only [if_neg hpow]
        have hAw : 0 ≤ A.wallet := hw A (findAgent_mem hA)
        have hloss0 : 0 ≤ min (A.wallet / 10) 30 :=
          le_min (Int.ediv_nonneg hAw (by norm_num)) (by norm_num)
        have hlossle : min (A.wallet / 10) 30 ≤ A.wallet :=
          le_trans (min_le_left _ _) (Int.ediv_le_self 10 hAw)
        have h1 : WalletsNonneg (updateAgent w actor
            (fun b => { b with wallet := b.wallet - min (A.wallet / 10) 30 })) := by
          apply walletsNonneg_updateAgent hw
          intro b hb hbn
          have hbA : b = A := findAgent_unique hnd hA b hb hbn
          subst hbA
          simpa using hlossle
        have h2 := walletsNonneg_credit tn h1 hloss0
        refine ⟨h2, hm, ?_, htr⟩
        exact namesNodup_updateAgent (fun a => rfl) (namesNodup_updateAgent (fun a => rfl) hnd)

theorem worldOK_checkTerritoryStep {w : World} (n : String) {t : Territory}
    (hOK : WorldOK w) (hpct : t.taxRatePct ≤ 100) :
    WorldOK (checkTerritoryStep n w t) := by
  obtain ⟨hw, hm, hnd, htr⟩ := hOK
  unfold checkTerritoryStep
  cases hA : findAgent w n with
  | none => exact ⟨hw, hm, hnd, htr⟩
  | some a =>
    dsimp only
    by_cases hxy : t.x = a.x ∧ t.y = a.y
    · simp only [if_pos hxy]
      by_cases how : t.owner ≠ a.name
      · simp only [if_pos how]
        have haw : 0 ≤ a.wallet := hw a (findAgent_mem hA)
        have htax0 : 0 ≤ taxOf a.wallet t.taxRatePct := taxOf_nonneg _ haw
        have htaxle : taxOf a.wallet t.taxRatePct ≤ a.wallet := taxOf_le haw hpct
        have h1 : WalletsNonneg (updateAgent w n
            (fun b => { b with wallet := b.wallet - taxOf a.wallet t.taxRatePct })) := by
          apply walletsNonneg_updateAgent hw
          intro b hb hbn
          have hba : b = a := findAgent_unique hnd hA b hb hbn
          subst hba
          simpa using htaxle
        have hnd1 : NamesNodup (updateAgent w n
            (fun b => { b with wallet := b.wallet - taxOf a.wallet t.taxRatePct })) :=
          namesNodup_updateAgent (fun a => rfl) hnd
        by_cases hown : (findAgent (updateAgent w n
            (fun b => { b with wallet := b.wallet - taxOf a.wallet t.taxRatePct }))
            t.owner).isSome
        · simp only [if_pos hown]
          exact ⟨walletsNonneg_credit t.owner h1 htax0, hm,
            namesNodup_updateAgent (fun a => rfl) hnd1, htr⟩
        · simp only [if_neg hown]
          exact ⟨h1, hm, hnd1, htr⟩
      · simp only [if_neg how]
        exact ⟨hw, hm, hnd, htr⟩
    · simp only [if_neg hxy]
      exact ⟨hw, hm, hnd, htr⟩

/-- The fold of `check_territory` over any sub-list of territories whose tax
rates are sane preserves the invariant. -/
theorem worldOK_checkTerritory_fold {n : String} :
    ∀ (ts : List Territory) (w : World), WorldOK w → (∀ t ∈ ts, t.taxRatePct ≤ 100) →
      WorldOK (ts.foldl (checkTerritoryStep n) w) := by
  intro ts
  induction ts with
  | nil => intro w hOK _; exact hOK
  | cons t rest ih =>
    intro w hOK hts
    rw [List.foldl_cons]
    have h1 : WorldOK (checkTerritoryStep n w t) :=
      worldOK_checkTerritoryStep n hOK (hts t (List.mem_cons_self t rest))
    exact ih _ h1 (fun t' ht' => hts t' (List.mem_cons_of_mem t ht'))

theorem checkTerritoryStep_territories (n : String) (w : World) (t : Territory) :
    (checkTerritoryStep n w t).territories = w.territories := by
  unfold checkTerritoryStep
  cases findAgent w n with
  | none => rfl
  | some a =>
    dsimp only
    by_cases hxy : t.x = a.x ∧ t.y = a.y
    · simp only [if_pos hxy]
      by_cases how : t.owner ≠ a.name
      · simp only [if_pos how]
        by_cases hown : (findAgent (updateAgent w n
            (fun b => { b with wallet := b.wallet - taxOf a.wallet t.taxRatePct }))
            t.owner).isSome
        · simp only [if_pos hown]; rfl
        · simp only [if_neg hown]; rfl
      · simp only [if_neg how]
    · simp only [if_neg hxy]

theorem worldOK_checkTerritory {w : World} (n : String) (hOK : WorldOK w) :
    WorldOK (checkTerritory w n) :=
  worldOK_checkTerritory_fold w.territories w hOK hOK.2.2.2

/-! ## Sequences of economy actions (trade / territory tax / battle) -/

/-- One economy action with its random draws made explicit: a trade
(`offer_trade <target>`), the territory-tax check a move performs
(`check_territory`), or a battle (`challenge <target>`). -/
inductive EconAct where
  | trade (actor target : String) (delta : Int)
  | tax (actor : String)
  | battle (actor target : String) (r1 r2 : Int)
deriving DecidableEq, Repr

/-- The random draws lie in the ranges the code's `random.randint` calls
produce: `delta ∈ [-5, 5]`, power rolls in `[1, 10]`. -/
def EconAct.Valid : EconAct → Prop
  | .trade _ _ d => -5 ≤ d ∧ d ≤ 5
  | .tax _ => True
  | .battle _ _ r1 r2 => 1 ≤ r1 ∧ r1 ≤ 10 ∧ 1 ≤ r2 ∧ r2 ≤ 10

instance (a : EconAct) : Decidable a.Valid := by
  cases a <;> dsimp [EconAct.Valid] <;> infer_instance

/-- Apply one economy action to the world. -/
def econStep (w : World) : EconAct → World
  | .trade a t d => offerTradeAction w a (some t) d
  | .tax a => checkTerritory w a
  | .battle a t r1 r2 => challengeAction w a (some t) r1 r2

/-- Apply a sequence of economy actions. -/
def econRun (w : World) (acts : List EconAct) : World :=
  acts.foldl econStep w

theorem worldOK_econStep {w : World} {a : EconAct} (hOK : WorldOK w)
    (hv : a.Valid) : WorldOK (econStep w a) := by
  cases a with
  | trade actor target d => exact worldOK_offerTrade actor (some target) hOK hv.1
  | tax actor => exact worldOK_checkTerritory actor hOK
  | battle actor target r1 r2 => exact worldOK_challenge actor (some target) r1 r2 hOK

theorem worldOK_econRun : ∀ (acts : List EconAct) (w : World), WorldOK w →
    (∀ a ∈ acts, a.Valid) → WorldOK (econRun w acts) := by
  intro acts
  induction acts with
  | nil => intro w hOK _; exact hOK
  | cons a rest ih =>
    intro w hOK hv
    exact ih (econStep w a)
      (worldOK_econStep hOK (hv a (List.mem_cons_self a rest)))
      (fun b hb => hv b (List.mem_cons_of_mem a hb))

/-! ## Decidability instances for concrete evaluation -/

instance (w : World) : Decidable (WalletsNonneg w) := by
  unfold WalletsNonneg; infer_instance

instance (w : World) : Decidable (MarketOK w) := by
  unfold MarketOK; infer_instance

instance (w : World) : Decidable (NamesNodup w) := by
  unfold NamesNodup; infer_instance

instance (w : World) : Decidable (TaxRatesOK w) := by
  unfold TaxRatesOK; infer_instance

instance (w : World) : Decidable (WorldOK w) := by
  unfold WorldOK; infer_instance

/-- C1: For every agent and every sequence of trade (`offer_trade`),
territory-tax and battle (`challenge`) actions applied to a world in which
all wallets start non-negative (together with the other state facts the
program maintains: market prices at least 5, unique agent names, tax rates
at most 100%), every agent's wallet remains non-negative after each action
(every prefix of a sequence is itself a sequence, so this covers every
intermediate state). -/
theorem wallet_nonneg_econRun (w : World) (acts : List EconAct)
    (hOK : WorldOK w) (hv : ∀ a ∈ acts, a.Valid) :
    WalletsNonneg (econRun w acts) :=
  (worldOK_econRun acts w hOK hv).1

/-! ## Movement clamping (C3) -/

/-- Both coordinates lie in the clamping rectangle `[4, 11]` of the
`move` branch of `AetherEnhanced.execute_action`. -/
def InBox (a : Agent) : Prop :=
  4 ≤ a.x ∧ a.x ≤ 11 ∧ 4 ≤ a.y ∧ a.y ≤ 11

instance (a : Agent) : Decidable (InBox a) := by
  unfold InBox; infer_instance

/-- Every registered agent is inside the clamping rectangle. -/
def AllInBox (w : World) : Prop := ∀ a ∈ w.agents, InBox a

instance (w : World) : Decidable (AllInBox w) := by
  unfold AllInBox; infer_instance

/-- A sequence of `move` actions: each entry is (actor, direction). -/
def moveRun (w : World) (ms : List (String × String)) : World :=
  ms.foldl (fun acc m => moveAction acc m.1 m.2) w

theorem inBox_moveStepPos {a : Agent} (dir : String) (h : InBox a) :
    InBox (moveStepPos a dir) := by
  obtain ⟨h1, h2, h3, h4⟩ := h
  unfold moveStepPos
  split_ifs <;> exact ⟨by simp_all <;> omega, by simp_all <;> omega,
    by simp_all <;> omega, by simp_all <;> omega⟩

theorem allInBox_updateAgent {w : World} {n : String} {f : Agent → Agent}
    (hw : AllInBox w) (hf : ∀ a ∈ w.agents, a.name = n → InBox (f a)) :
    AllInBox (updateAgent w n f) := by
  intro b hb
  unfold updateAgent at hb
  simp only [List.mem_map] at hb
  obtain ⟨a, ha, rfl⟩ := hb
  by_cases h : a.name = n
  · simpa [h] using hf a ha h
  · simpa [h] using hw a ha

/-- An update that does not move the agent preserves the rectangle. -/
theorem allInBox_updateAgent_of_pos_eq {w : World} {n : String} {f : Agent → Agent}
    (hw : AllInBox w) (hf : ∀ a, (f a).x = a.x ∧ (f a).y = a.y) :
    AllInBox (updateAgent w n f) := by
  refine allInBox_updateAgent hw (fun a ha _ => ?_)
  have h := hw a ha
  unfold InBox at h ⊢
  rw [(hf a).1, (hf a).2]
  exact h

theorem allInBox_checkTerritoryStep {w : World} (n : String) (t : Territory)
    (hw : AllInBox w) : AllInBox (checkTerritoryStep n w t) := by
  unfold checkTerritoryStep
  cases findAgent w n with
  | none => exact hw
  | some a =>
    dsimp only
    by_cases hxy : t.x = a.x ∧ t.y = a.y
    · simp only [if_pos hxy]
      by_cases how : t.owner ≠ a.name
      · simp only [if_pos how]
        have h1 : AllInBox (updateAgent w n
            (fun b => { b with wallet := b.wallet - taxOf a.wallet t.taxRatePct })) :=
          allInBox_updateAgent_of_pos_eq hw (fun a => ⟨rfl, rfl⟩)
        by_cases hown : (findAgent (updateAgent w n
            (fun b => { b with wallet := b.wallet - taxOf a.wallet t.taxRatePct }))
            t.owner).isSome
        · simp only [if_pos hown]
          exact allInBox_updateAgent_of_pos_eq h1 (fun a => ⟨rfl, rfl⟩)
        · simp only [if_neg hown]
          exact h1
      · simp only [if_neg how]
        exact hw
    · simp only [if_neg hxy]
      exact hw

theorem allInBox_checkTerritory_fold (n : String) :
    ∀ (ts : List Territory) (w : World), AllInBox w →
      AllInBox (ts.foldl (checkTerritoryStep n) w) := by
  intro ts
  induction ts with
  | nil => intro w hw; exact hw
  | cons t rest ih =>
    intro w hw
    rw [List.foldl_cons]
    exact ih _ (allInBox_checkTerritoryStep n t hw)

theorem allInBox_checkTerritory {w : World} (n : String) (hw : AllInBox w) :
    AllInBox (checkTerritory w n) :=
  allInBox_checkTerritory_fold n w.territories w hw

theorem allInBox_chat {w : World} {a m t : String} :
    AllInBox (chat w a m t) ↔ AllInBox w := Iff.rfl

theorem allInBox_ite {c : Prop} [Decidable c] {w1 w2 : World}
    (h1 : AllInBox w1) (h2 : AllInBox w2) : AllInBox (if c then w1 else w2) := by
  split <;> assumption

theorem allInBox_moveAction {w : World} (n dir : String) (hw : AllInBox w) :
    AllInBox (moveAction w n dir) := by
  unfold moveAction
  cases hA : findAgent w n with
  | none => exact hw
  | some agent =>
    dsimp only
    have hbox : InBox (moveStepPos agent dir) :=
      inBox_moveStepPos dir (hw agent (findAgent_mem hA))
    have hupd : AllInBox (updateAgent w n (fun _ =>
        if ({ moveStepPos agent dir with
              actions := (moveStepPos agent dir).actions + 1,
              xp := (moveStepPos agent dir).xp + 1 } : Agent).level * 10 ≤
            ({ moveStepPos agent dir with
               actions := (moveStepPos agent dir).actions + 1,
               xp := (moveStepPos agent dir).xp + 1 } : Agent).xp then
          { moveStepPos agent dir with
            actions := (moveStepPos agent dir).actions + 1, xp := 0,
            level := (moveStepPos agent dir).level + 1,
            wallet := (moveStepPos agent dir).wallet + 50 }
        else
          { moveStepPos agent dir with
            actions := (moveStepPos agent dir).actions + 1,
            xp := (moveStepPos agent dir).xp + 1 })) :=
      allInBox_updateAgent hw (fun a _ _ => by split <;> exact hbox)
    apply allInBox_checkTerritory
    apply allInBox_ite
    · rw [allInBox_chat]
      apply allInBox_ite
      · rw [allInBox_chat]; exact hupd
      · exact hupd
    · apply allInBox_ite
      · rw [allInBox_chat]; exact hupd
      · exact hupd

/-- C3 (amended): the `move` branch clamps each moved coordinate to
`[4, 11]`, so from any world whose agents all sit inside that rectangle,
every sequence of move actions (by any actors, in any directions) keeps
every agent inside the rectangle.  The claim as frozen fails only for
freshly spawned agents: `register_agent` draws `y ∈ [3, 7]`, so an agent
can spawn at `y = 3`, one row below the rectangle, and stay there under
horizontal moves — see the counterexample. -/
theorem moveRun_inBox (w : World) (ms : List (String × String))
    (hw : AllInBox w) : AllInBox (moveRun w ms) := by
  unfold moveRun
  revert w
  induction ms with
  | nil => intro w hw; exact hw
  | cons m rest ih =>
    intro w hw
    rw [List.foldl_cons]
    exact ih _ (allInBox_moveAction m.1 m.2 hw)

/-- C3 counterexample: spawning with the legal draws `x = randint(4,8) = 4`,
`y = randint(3,7) = 3`, wallet roll 0, and then executing `move left`
leaves the agent at `(4, 3)`, outside the rectangle `[4,11] × [4,11]`. -/
theorem spawn_outside_box_counterexample :
    (findAgent (executeAction (registerAgent initWorld "Koolie" "explorer" 4 3 0)
        "Koolie" "move left" {}) "Koolie").map (fun a => (a.x, a.y)) = some (4, 3) ∧
    ¬ AllInBox (executeAction (registerAgent initWorld "Koolie" "explorer" 4 3 0)
        "Koolie" "move left" {}) := by
  constructor
  · decide
  · decide

/-- Witness for C3 at a concrete world and move sequence. -/
theorem moveRun_inBox_witness :
    AllInBox { agents := [{ name := "Koolie", personality := "explorer", x := 5, y := 5 }],
               marketPrices := initMarket } ∧
    AllInBox (moveRun
      { agents := [{ name := "Koolie", personality := "explorer", x := 5, y := 5 }],
        marketPrices := initMarket }
      [("Koolie", "up"), ("Koolie", "up"), ("Koolie", "left"), ("Koolie", "down")]) :=
  ⟨by decide, moveRun_inBox _ _ (by decide)⟩

/-! ## Lookup lemmas for in-place replacement -/

theorem findAgent_chat (w : World) (a m t n : String) :
    findAgent (chat w a m t) n = findAgent w n := rfl

/-- Replacing every agent named `n` by `b` (with `b.name = n`) makes the
first lookup of `n` return `b`, provided some agent named `n` exists. -/
theorem find?_map_replace {l : List Agent} {n : String} {b : Agent} (hb : b.name = n)
    (h : (l.find? (fun a => a.name == n)).isSome = true) :
    (l.map (fun a => if a.name = n then b else a)).find? (fun a => a.name == n)
      = some b := by
  induction l with
  | nil => simp [List.find?] at h
  | cons c rest ih =>
    by_cases hc : c.name = n
    · have hbt : (b.name == n) = true := beq_iff_eq.mpr hb
      rw [List.map_cons, if_pos hc, List.find?_cons, hbt]
    · have hcf : (c.name == n) = false := by simpa using hc
      rw [List.find?_cons, hcf] at h
      rw [List.map_cons, if_neg hc, List.find?_cons, hcf]
      exact ih h

theorem findAgent_updateAgent_const {w : World} {n : String} {b : Agent}
    (hb : b.name = n) (h : (findAgent w n).isSome = true) :
    findAgent (updateAgent w n (fun _ => b)) n = some b :=
  find?_map_replace hb h

theorem checkTerritory_of_no_territories {w : World} (n : String)
    (h : w.territories = []) : checkTerritory w n = w := by
  unfold checkTerritory
  rw [h]
  rfl

/-- Field lemmas: the clamped position update touches only `x` and `y`. -/
theorem moveStepPos_name (a : Agent) (dir : String) :
    (moveStepPos a dir).name = a.name := by
  unfold moveStepPos; split_ifs <;> rfl

theorem moveStepPos_wallet (a : Agent) (dir : String) :
    (moveStepPos a dir).wallet = a.wallet := by
  unfold moveStepPos; split_ifs <;> rfl

theorem moveStepPos_level (a : Agent) (dir : String) :
    (moveStepPos a dir).level = a.level := by
  unfold moveStepPos; split_ifs <;> rfl

theorem moveStepPos_xp (a : Agent) (dir : String) :
    (moveStepPos a dir).xp = a.xp := by
  unfold moveStepPos; split_ifs <;> rfl

theorem moveStepPos_actions (a : Agent) (dir : String) :
    (moveStepPos a dir).actions = a.actions := by
  unfold moveStepPos; split_ifs <;> rfl

/-- Specialization of `findAgent_updateAgent` to the search branch's update
(inventory and xp only; names preserved). -/
theorem findAgent_updateInvXp (w : World) (n m : String)
    (gi : Agent → List Item) (gx : Agent → Nat) :
    findAgent (updateAgent w n (fun b => { b with inventory := gi b, xp := gx b })) m =
      (findAgent w m).map
        (fun a => if a.name = n then { a with inventory := gi a, xp := gx a } else a) :=
  findAgent_updateAgent w n m _ (fun a => rfl)

/-- C2 (amended): the level-up check runs only in the `move` branch: a move
action that leaves an agent with `xp ≥ level*10` increments the level,
resets xp to 0 and credits the fixed 50-gold bonus, and a move that leaves
`xp < level*10` changes none of level/xp-reset/wallet (the move parts are
stated for a world with no territories so that no tax interferes with the
wallet).  The `search` branch, by contrast, appends the found item and adds
exactly 5 xp while leaving level and wallet untouched — it performs no
level-up check whatsoever (third conjunct, for every found item type), so
xp can reach or pass the `level*10` threshold without a level-up.  The
claim as frozen asserts the level-up for every xp-granting action and fails
on `search` — see the counterexample. -/
theorem moveAction_levelup_spec (w : World) (actor dir : String) (A : Agent)
    (hA : findAgent w actor = some A) (hterr : w.territories = []) :
    (A.level * 10 ≤ A.xp + 1 →
      findAgent (moveAction w actor dir) actor =
        some { (moveStepPos A dir) with
               actions := A.actions + 1, xp := 0
               level := A.level + 1, wallet := A.wallet + 50 }) ∧
    (A.xp + 1 < A.level * 10 →
      findAgent (moveAction w actor dir) actor =
        some { (moveStepPos A dir) with actions := A.actions + 1, xp := A.xp + 1 }) ∧
    (∀ found : ItemType,
      findAgent (searchAction w actor found) actor =
        some { A with inventory := A.inventory ++ [⟨found, 1, A.name, w.marketPrices found⟩]
                      xp := A.xp + 5 }) := by
  have hsome : (findAgent w actor).isSome = true := by rw [hA]; rfl
  have hname : A.name = actor := findAgent_name hA
  refine ⟨?_, ?_, ?_⟩
  · intro hl
    unfold moveAction
    rw [hA]
    dsimp only
    simp only [moveStepPos_level, moveStepPos_xp, moveStepPos_actions, moveStepPos_wallet]
    simp only [if_pos hl]
    rw [checkTerritory_of_no_territories]
    · rw [apply_ite (fun x : World => findAgent x actor)]
      simp only [findAgent_chat, ite_self]
      exact findAgent_updateAgent_const (by rw [moveStepPos_name]; exact hname) hsome
    · rw [apply_ite World.territories]
      simp only [chat_territories, updateAgent_territories, ite_self]
      exact hterr
  · intro hl
    have hl' : ¬ (A.level * 10 ≤ A.xp + 1) := by omega
    unfold moveAction
    rw [hA]
    dsimp only
    simp only [moveStepPos_level, moveStepPos_xp, moveStepPos_actions, moveStepPos_wallet]
    simp only [if_neg hl']
    rw [checkTerritory_of_no_territories]
    · rw [apply_ite (fun x : World => findAgent x actor)]
      simp only [findAgent_chat, ite_self]
      exact findAgent_updateAgent_const (by rw [moveStepPos_name]; exact hname) hsome
    · rw [apply_ite World.territories]
      simp only [chat_territories, updateAgent_territories, ite_self]
      exact hterr
  · intro found
    unfold searchAction
    rw [hA]
    dsimp only
    rw [findAgent_chat, findAgent_updateInvXp, hA]
    simp only [Option.map_some']
    rw [if_pos hname]

/-- C2 counterexample: an agent at level 1 with 9 xp who executes `search`
ends with 14 xp — at or past the `level*10 = 10` threshold — yet keeps
level 1, and its wallet stays at 100 (no 50-gold bonus): an xp-granting
action crossed the threshold without a level-up. -/
theorem search_no_levelup_counterexample :
    (findAgent (executeAction
        { agents := [{ name := "Koolie", personality := "gatherer", x := 5, y := 5,
                       wallet := 100, level := 1, xp := 9 }],
          marketPrices := initMarket }
        "Koolie" "search" {}) "Koolie").map (fun a => (a.level, a.xp, a.wallet))
      = some (1, 14, 100) ∧ (1 : Nat) * 10 ≤ 14 := by
  constructor
  · decide
  · decide

/-- Witness for C2: at a concrete world with `xp = 9`, `level = 1`, a move
levels up (`xp + 1 = 10 ≥ level*10`), while a search on the same world adds
exactly 5 xp — crossing the threshold — with level and wallet untouched. -/
theorem moveAction_levelup_spec_witness :
    (findAgent (moveAction
      { agents := [{ name := "Koolie", personality := "explorer", x := 5, y := 5,
                     wallet := 100, level := 1, xp := 9 }],
        marketPrices := initMarket } "Koolie" "up") "Koolie" =
    some { (moveStepPos { name := "Koolie", personality := "explorer", x := 5, y := 5,
                          wallet := 100, level := 1, xp := 9 } "up") with
           actions := 0 + 1, xp := 0
           level := 1 + 1, wallet := 100 + 50 }) ∧
    (findAgent (searchAction
      { agents := [{ name := "Koolie", personality := "explorer", x := 5, y := 5,
                     wallet := 100, level := 1, xp := 9 }],
        marketPrices := initMarket } "Koolie" ItemType.potion) "Koolie" =
    some { name := "Koolie", personality := "explorer", x := 5, y := 5, wallet := 100
           inventory := [{ type := ItemType.potion, quantity := 1, owner := "Koolie"
                           value := initMarket ItemType.potion }]
           level := 1, xp := 9 + 5 }) :=
  ⟨(moveAction_levelup_spec _ "Koolie" "up"
      { name := "Koolie", personality := "explorer", x := 5, y := 5,
        wallet := 100, level := 1, xp := 9 }
      (by decide) rfl).1 (by decide),
   (moveAction_levelup_spec _ "Koolie" "up"
      { name := "Koolie", personality := "explorer", x := 5, y := 5,
        wallet := 100, level := 1, xp := 9 }
      (by decide) rfl).2.2 ItemType.potion⟩

/-- Specialization of `findAgent_updateAgent` to wallet-only updates (these
always preserve names). -/
theorem findAgent_updateWallet (w : World) (n m : String) (g : Agent → Int) :
    findAgent (updateAgent w n (fun b => { b with wallet := g b })) m =
      (findAgent w m).map (fun a => if a.name = n then { a with wallet := g a } else a) :=
  findAgent_updateAgent w n m _ (fun a => rfl)

/-- Specialization of `findAgent_updateAgent` to inventory-only updates. -/
theorem findAgent_updateInventory (w : World) (n m : String) (g : Agent → List Item) :
    findAgent (updateAgent w n (fun b => { b with inventory := g b })) m =
      (findAgent w m).map (fun a => if a.name = n then { a with inventory := g a } else a) :=
  findAgent_updateAgent w n m _ (fun a => rfl)

/-- C4: when a non-owner agent stands on the coordinates of the territory
(stated for the world whose territory list is exactly that territory), the
`check_territory` pass debits exactly `floor(wallet * tax_rate)` — here
`wallet * pct / 100` computed on the pre-debit wallet — and credits exactly
that amount to the territory owner, who is registered. -/
theorem checkTerritory_tax_spec (w : World) (n : String) (t : Territory)
    (A O : Agent)
    (h1 : w.territories = [t])
    (hA : findAgent w n = some A)
    (hx : t.x = A.x) (hy : t.y = A.y)
    (how : t.owner ≠ A.name)
    (hO : findAgent w t.owner = some O) :
    findAgent (checkTerritory w n) n =
      some { A with wallet := A.wallet - taxOf A.wallet t.taxRatePct } ∧
    findAgent (checkTerritory w n) t.owner =
      some { O with wallet := O.wallet + taxOf A.wallet t.taxRatePct } := by
  have hAn : A.name = n := findAgent_name hA
  have hOn : O.name = t.owner := findAgent_name hO
  have hon : t.owner ≠ n := by rw [hAn] at how; exact how
  have hAno : ¬ (A.name = t.owner) := fun hh => how hh.symm
  unfold checkTerritory
  rw [h1]
  simp only [List.foldl_cons, List.foldl_nil]
  unfold checkTerritoryStep
  rw [hA]
  dsimp only
  rw [if_pos ⟨hx, hy⟩, if_pos how]
  have hw1O : findAgent (updateAgent w n
      (fun b => { b with wallet := b.wallet - taxOf A.wallet t.taxRatePct }))
      t.owner = some O := by
    rw [findAgent_updateWallet, hO]
    simp only [Option.map_some']
    rw [if_neg (by rw [hOn]; exact hon)]
  simp only [hw1O, Option.isSome_some, if_true]
  constructor
  · rw [findAgent_chat, findAgent_updateWallet, findAgent_updateWallet, hA]
    simp only [Option.map_some']
    rw [if_pos hAn]
    rw [if_neg hAno]
  · rw [findAgent_chat, findAgent_updateWallet, hw1O]
    simp only [Option.map_some']
    rw [if_pos hOn]

/-- Witness for C4 at a concrete two-agent world with one territory: the
trespasser pays `taxOf 100 5 = 5` gold, fully credited to the owner. -/
theorem checkTerritory_tax_spec_witness :
    findAgent (checkTerritory
      { agents := [{ name := "Alice", personality := "social", x := 5, y := 5, wallet := 100 },
                   { name := "Bob", personality := "merchant", x := 9, y := 9, wallet := 7 }]
        territories := [{ x := 5, y := 5, owner := "Bob", name := "Bobs Land" }]
        marketPrices := initMarket } "Alice") "Alice" =
      some { name := "Alice", personality := "social", x := 5, y := 5
             wallet := 100 - taxOf 100 5 } ∧
    findAgent (checkTerritory
      { agents := [{ name := "Alice", personality := "social", x := 5, y := 5, wallet := 100 },
                   { name := "Bob", personality := "merchant", x := 9, y := 9, wallet := 7 }]
        territories := [{ x := 5, y := 5, owner := "Bob", name := "Bobs Land" }]
        marketPrices := initMarket } "Alice") "Bob" =
      some { name := "Bob", personality := "merchant", x := 9, y := 9
             wallet := 7 + taxOf 100 5 } :=
  checkTerritory_tax_spec
    { agents := [{ name := "Alice", personality := "social", x := 5, y := 5, wallet := 100 },
                 { name := "Bob", personality := "merchant", x := 9, y := 9, wallet := 7 }]
      territories := [{ x := 5, y := 5, owner := "Bob", name := "Bobs Land" }]
      marketPrices := initMarket }
    "Alice"
    { x := 5, y := 5, owner := "Bob", name := "Bobs Land" }
    { name := "Alice", personality := "social", x := 5, y := 5, wallet := 100 }
    { name := "Bob", personality := "merchant", x := 9, y := 9, wallet := 7 }
    rfl (by decide) rfl rfl (by decide) (by decide)

/-- C5 (amended): `offer_trade <target>` (with a registered, distinct
target) transfers the first inventory item and the perturbed market price
`market + delta` in gold if and only if the actor's inventory is non-empty
AND the target's wallet is at least 30 AND the target's wallet covers the
price; exactly then a trade entry is appended to the chat, and the moved
item's owner field becomes the target's name.  The claim as frozen omits
the `target.wallet >= 30` gate of `aether_enhanced.py` and fails when the
price is below 30 — see the counterexample.  (In `aether_full.py` the gate
is absent and the claimed iff does hold for that variant.) -/
theorem offerTrade_spec (w : World) (actor tn : String) (d : Int) (A T : Agent)
    (hA : findAgent w actor = some A) (hT : findAgent w tn = some T)
    (hne : actor ≠ tn) :
    (A.inventory = [] → offerTradeAction w actor (some tn) d = w) ∧
    (∀ item rest, A.inventory = item :: rest →
      (¬ (30 ≤ T.wallet ∧ w.marketPrices item.type + d ≤ T.wallet) →
        offerTradeAction w actor (some tn) d = w) ∧
      (30 ≤ T.wallet → w.marketPrices item.type + d ≤ T.wallet →
        findAgent (offerTradeAction w actor (some tn) d) actor =
          some { A with wallet := A.wallet + (w.marketPrices item.type + d)
                        inventory := rest } ∧
        findAgent (offerTradeAction w actor (some tn) d) tn =
          some { T with wallet := T.wallet - (w.marketPrices item.type + d)
                        inventory := T.inventory ++ [{ item with owner := tn }] } ∧
        (offerTradeAction w actor (some tn) d).chatHistory =
          (chat w actor "Sold item" "trade").chatHistory)) := by
  have hAn : A.name = actor := findAgent_name hA
  have hTn : T.name = tn := findAgent_name hT
  unfold offerTradeAction
  dsimp only
  rw [hT]
  dsimp only
  rw [hA]
  dsimp only
  constructor
  · intro hinv
    rw [hinv]
  · intro item rest hinv
    rw [hinv]
    dsimp only
    constructor
    · intro hno
      by_cases h30 : (30 : Int) ≤ T.wallet
      · rw [if_pos h30]
        have hp : ¬ (w.marketPrices item.type + d ≤ T.wallet) := fun hp => hno ⟨h30, hp⟩
        rw [if_neg hp]
      · rw [if_neg h30]
    · intro h30 hp
      rw [if_pos h30, if_pos hp]
      refine ⟨?_, ?_, rfl⟩
      · rw [findAgent_chat, findAgent_updateInventory, findAgent_updateInventory,
          findAgent_updateWallet, findAgent_updateWallet, hA]
        simp only [Option.map_some', hAn, hTn, if_neg hne, if_neg (Ne.symm hne),
          eq_self_iff_true, if_true, hinv, List.drop_one, List.tail_cons]
      · rw [findAgent_chat, findAgent_updateInventory, findAgent_updateInventory,
          findAgent_updateWallet, findAgent_updateWallet, hT]
        simp only [Option.map_some', hAn, hTn, if_neg hne, if_neg (Ne.symm hne),
          eq_self_iff_true, if_true]

/-- C5 counterexample: the actor holds a potion (market price 20), the
trade delta is `-5`, so the price is 15 and the target's wallet of 20
covers it with a non-empty actor inventory — yet no transfer happens,
because the code also requires `target.wallet >= 30`: the world is
returned unchanged and nothing is logged. -/
theorem offerTrade_threshold_counterexample :
    (executeAction
      { agents := [{ name := "A", personality := "merchant", x := 5, y := 5, wallet := 100
                     inventory := [{ type := .potion, owner := "A", value := 20 }] },
                   { name := "B", personality := "social", x := 5, y := 6, wallet := 20 }]
        marketPrices := initMarket } "A" "offer_trade B" { tradeDelta := -5 }).agents =
      [{ name := "A", personality := "merchant", x := 5, y := 5, wallet := 100
         inventory := [{ type := .potion, owner := "A", value := 20 }] },
       { name := "B", personality := "social", x := 5, y := 6, wallet := 20 }] ∧
    (executeAction
      { agents := [{ name := "A", personality := "merchant", x := 5, y := 5, wallet := 100
                     inventory := [{ type := .potion, owner := "A", value := 20 }] },
                   { name := "B", personality := "social", x := 5, y := 6, wallet := 20 }]
        marketPrices := initMarket } "A" "offer_trade B" { tradeDelta := -5 }).chatHistory
      = [] ∧
    initMarket ItemType.potion + (-5) ≤ (20 : Int) := by
  refine ⟨?_, ?_, ?_⟩ <;> decide

/-- Witness for C5: with a rich target (wallet 100) the iff fires: gold and
item move, and a trade entry is logged. -/
theorem offerTrade_spec_witness :
    findAgent (offerTradeAction
      { agents := [{ name := "A", personality := "merchant", x := 5, y := 5, wallet := 100
                     inventory := [{ type := .potion, owner := "A", value := 20 }] },
                   { name := "B", personality := "social", x := 5, y := 6, wallet := 100 }]
        marketPrices := initMarket } "A" (some "B") (-5)) "A" =
      some { name := "A", personality := "merchant", x := 5, y := 5
             wallet := 100 + (initMarket ItemType.potion + (-5)), inventory := [] } ∧
    findAgent (offerTradeAction
      { agents := [{ name := "A", personality := "merchant", x := 5, y := 5, wallet := 100
                     inventory := [{ type := .potion, owner := "A", value := 20 }] },
                   { name := "B", personality := "social", x := 5, y := 6, wallet := 100 }]
        marketPrices := initMarket } "A" (some "B") (-5)) "B" =
      some { name := "B", personality := "social", x := 5, y := 6
             wallet := 100 - (initMarket ItemType.potion + (-5))
             inventory := [{ type := .potion, owner := "B", value := 20 }] } ∧
    (offerTradeAction
      { agents := [{ name := "A", personality := "merchant", x := 5, y := 5, wallet := 100
                     inventory := [{ type := .potion, owner := "A", value := 20 }] },
                   { name := "B", personality := "social", x := 5, y := 6, wallet := 100 }]
        marketPrices := initMarket } "A" (some "B") (-5)).chatHistory =
      (chat
        { agents := [{ name := "A", personality := "merchant", x := 5, y := 5, wallet := 100
                       inventory := [{ type := .potion, owner := "A", value := 20 }] },
                     { name := "B", personality := "social", x := 5, y := 6, wallet := 100 }]
          marketPrices := initMarket } "A" "Sold item" "trade").chatHistory :=
  ((offerTrade_spec
      { agents := [{ name := "A", personality := "merchant", x := 5, y := 5, wallet := 100
                     inventory := [{ type := .potion, owner := "A", value := 20 }] },
                   { name := "B", personality := "social", x := 5, y := 6, wallet := 100 }]
        marketPrices := initMarket }
      "A" "B" (-5)
      { name := "A", personality := "merchant", x := 5, y := 5, wallet := 100
        inventory := [{ type := .potion, owner := "A", value := 20 }] }
      { name := "B", personality := "social", x := 5, y := 6, wallet := 100 }
      (by decide) (by decide) (by decide)).2
    { type := .potion, owner := "A", value := 20 } [] rfl).2 (by decide) (by decide)

/-- C6: the enhanced chat history never exceeds 30 entries — each append
preserves the bound (hence any sequence of appends from a within-bound
state does), and an append at capacity evicts the oldest entry (index 0)
first: the new history is the old one minus its head plus the new entry.
Likewise the full variant's `broadcast` overlay with capacity 20. -/
theorem chat_bounded_fifo :
    (∀ (w : World) (a m t : String),
      w.chatHistory.length ≤ 30 → (chat w a m t).chatHistory.length ≤ 30) ∧
    (∀ (w : World) (a m t : String),
      w.chatHistory.length = 30 →
      (chat w a m t).chatHistory = w.chatHistory.drop 1 ++ [⟨a, m, t, w.tick⟩]) ∧
    (∀ (w : World) (msgs : List (String × String × String)),
      w.chatHistory.length ≤ 30 →
      (msgs.foldl (fun acc p => chat acc p.1 p.2.1 p.2.2) w).chatHistory.length ≤ 30) ∧
    (∀ (overlay : List FullEntry) (m t : String),
      overlay.length ≤ 20 → (broadcast overlay m t).length ≤ 20) ∧
    (∀ (overlay : List FullEntry) (m t : String),
      overlay.length = 20 → broadcast overlay m t = overlay.drop 1 ++ [⟨m, t⟩]) := by
  have step : ∀ (w : World) (a m t : String),
      w.chatHistory.length ≤ 30 → (chat w a m t).chatHistory.length ≤ 30 := by
    intro w a m t h
    unfold chat
    dsimp only
    split_ifs with hc
    · rw [List.length_append, List.length_singleton] at hc
      rw [List.length_drop, List.length_append, List.length_singleton]
      omega
    · rw [List.length_append, List.length_singleton] at hc
      rw [List.length_append, List.length_singleton]
      omega
  refine ⟨step, ?_, ?_, ?_, ?_⟩
  · intro w a m t h
    unfold chat
    dsimp only
    have hdrop : (w.chatHistory ++ [(⟨a, m, t, w.tick⟩ : ChatEntry)]).drop 1
        = w.chatHistory.drop 1 ++ [⟨a, m, t, w.tick⟩] :=
      List.drop_append_of_le_length (by omega)
    rw [if_pos (by rw [List.length_append, List.length_singleton, h]; omega), hdrop]
  · intro w msgs
    induction msgs generalizing w with
    | nil => intro h; exact h
    | cons p rest ih =>
      intro h
      rw [List.foldl_cons]
      exact ih _ (step w p.1 p.2.1 p.2.2 h)
  · intro overlay m t h
    unfold broadcast
    dsimp only
    split_ifs with hc
    · rw [List.length_append, List.length_singleton] at hc
      rw [List.length_drop, List.length_append, List.length_singleton]
      omega
    · rw [List.length_append, List.length_singleton] at hc
      rw [List.length_append, List.length_singleton]
      omega
  · intro overlay m t h
    unfold broadcast
    dsimp only
    have hdrop : (overlay ++ [(⟨m, t⟩ : FullEntry)]).drop 1
        = overlay.drop 1 ++ [⟨m, t⟩] :=
      List.drop_append_of_le_length (by omega)
    rw [if_pos (by rw [List.length_append, List.length_singleton, h]; omega), hdrop]

/-- Witness for C6 at a full history of 30 entries (and an overlay of 20):
the append stays within bound and drops the oldest entry. -/
theorem chat_bounded_fifo_witness :
    (chat { chatHistory := List.replicate 30 ⟨"s", "old", "chat", 0⟩
            marketPrices := initMarket } "a" "hello" "chat").chatHistory.length ≤ 30 ∧
    (chat { chatHistory := List.replicate 30 ⟨"s", "old", "chat", 0⟩
            marketPrices := initMarket } "a" "hello" "chat").chatHistory =
      (List.replicate 30 (⟨"s", "old", "chat", 0⟩ : ChatEntry)).drop 1
        ++ [⟨"a", "hello", "chat", 0⟩] ∧
    broadcast (List.replicate 20 ⟨"x", "chat"⟩) "y" "chat" =
      (List.replicate 20 (⟨"x", "chat"⟩ : FullEntry)).drop 1 ++ [⟨"y", "chat"⟩] :=
  ⟨chat_bounded_fifo.1 _ "a" "hello" "chat" (by decide),
   chat_bounded_fifo.2.1 _ "a" "hello" "chat" (by decide),
   chat_bounded_fifo.2.2.2.2 _ "y" "chat" (by decide)⟩

/-- C7: an action string that matches none of the recognized forms (it does
not start with "move", "say", "offer_trade" or "challenge" and is neither
"search" nor "buy_land") — in particular the bare direction strings
"up"/"down"/"left"/"right" that several `think` branches return without the
"move " prefix — leaves the whole world (agents, territories, market
prices, chat history, tick) unchanged. -/
theorem executeAction_unrecognized_noop (w : World) (actor action : String) (rng : Rng)
    (h1 : startsWithStr "move" action = false)
    (h2 : startsWithStr "say" action = false)
    (h3 : action ≠ "search")
    (h4 : action ≠ "buy_land")
    (h5 : startsWithStr "offer_trade" action = false)
    (h6 : startsWithStr "challenge" action = false) :
    executeAction w actor action rng = w := by
  unfold executeAction
  rw [if_neg (by simp [h1]), if_neg (by simp [h2]), if_neg h3, if_neg h4,
    if_neg (by simp [h5]), if_neg (by simp [h6])]

/-- Witness for C7: the bare direction string "up" is a no-op. -/
theorem executeAction_unrecognized_noop_witness :
    executeAction
      { agents := [{ name := "Koolie", personality := "explorer", x := 5, y := 5 }]
        marketPrices := initMarket } "Koolie" "up" {} =
      { agents := [{ name := "Koolie", personality := "explorer", x := 5, y := 5 }]
        marketPrices := initMarket } :=
  executeAction_unrecognized_noop _ "Koolie" "up" {}
    (by decide) (by decide) (by decide) (by decide) (by decide) (by decide)

/-- C8 (amended): re-registering an existing name never reports an error,
but only `aether_server.py` reuses the existing entry (its `action_count`
and identity are kept; just the position fields and `last_seen` are
refreshed from the emulator, and `success` is returned).  In the
enhanced variant (`aether_enhanced.py`, and likewise `aether_full.py`),
`register_agent` has no presence check at all: the existing entry is
silently replaced by a brand-new agent (fresh random spawn and wallet,
empty inventory, reset counters).  The claim as frozen asserts reuse for
all variants and fails on the enhanced one — see the counterexample. -/
theorem register_duplicate_spec :
    (∀ (agents : List SAgent) (name : String) (px py pm : Int) (ts : String),
      agents.any (fun a => a.name == name) = true →
      (serverRegister agents name px py pm ts).1
          = agents.map (fun a => if a.name = name then
              { a with x := px, y := py, mapId := pm, lastSeen := ts } else a) ∧
      (serverRegister agents name px py pm ts).2 = true) ∧
    (∀ (w : World) (name p : String) (rx ry rw : Int),
      w.agents.any (fun a => a.name == name) = true →
      (registerAgent w name p rx ry rw).agents
          = w.agents.map (fun a => if a.name = name then
              { name := name, personality := p, x := rx, y := ry, wallet := 100 + rw }
            else a)) := by
  constructor
  · intro agents name px py pm ts h
    unfold serverRegister
    rw [if_pos h]
    exact ⟨rfl, rfl⟩
  · intro w name p rx ry rw h
    unfold registerAgent dictInsert
    dsimp only
    rw [chat_agents]
    dsimp only
    rw [if_pos h]

/-- C8 counterexample: in the enhanced variant, an agent with wallet 999,
one inventory item, level 5 and 7 actions is re-registered under the same
name (with legal spawn draws) — and the registry now holds a fresh agent
(wallet 100, empty inventory, level 1, 0 actions): the previous state was
not kept, and no error was reported. -/
theorem register_duplicate_counterexample :
    (findAgent { agents := [{ name := "Koolie", personality := "explorer", x := 5, y := 5
                              wallet := 999, inventory := [{ type := .potion, owner := "Koolie" }]
                              actions := 7, level := 5 }]
                 marketPrices := initMarket } "Koolie").map
      (fun a => (a.wallet, a.inventory.length, a.level, a.actions))
      = some (999, 1, 5, 7) ∧
    (findAgent (registerAgent
      { agents := [{ name := "Koolie", personality := "explorer", x := 5, y := 5
                     wallet := 999, inventory := [{ type := .potion, owner := "Koolie" }]
                     actions := 7, level := 5 }]
        marketPrices := initMarket } "Koolie" "explorer" 5 5 0) "Koolie").map
      (fun a => (a.wallet, a.inventory.length, a.level, a.actions))
      = some (100, 0, 1, 0) := by
  exact ⟨by decide, by decide⟩

/-- Witness for C8 at concrete registries for both variants. -/
theorem register_duplicate_spec_witness :
    (serverRegister [{ name := "Koolie", x := 1, y := 2, mapId := 3
                       lastSeen := "old", actionCount := 9 }] "Koolie" 7 8 0 "new").1
      = [{ name := "Koolie", x := 7, y := 8, mapId := 0
           lastSeen := "new", actionCount := 9 }] ∧
    (registerAgent
      { agents := [{ name := "Koolie", personality := "explorer", wallet := 999 }]
        marketPrices := initMarket } "Koolie" "gatherer" 5 6 1).agents
      = [{ name := "Koolie", personality := "gatherer", x := 5, y := 6, wallet := 101 }] :=
  ⟨by rw [(register_duplicate_spec.1 _ "Koolie" 7 8 0 "new" (by decide)).1]; decide,
   by rw [register_duplicate_spec.2 _ "Koolie" "gatherer" 5 6 1 (by decide)]; decide⟩

/-- C10 (code bug): `stuck_count` is initialized to 0 and reset to 0 inside
the perpendicular branch, but it is never incremented anywhere, so it stays
0 along every run and the `stuck_count > 3` branch is unreachable: after
five consecutive "up" moves (draw index 0 each turn) the next `smart_move`
can again return "up", which is not perpendicular to "up" — contradicting
the claimed anti-oscillation behaviour, which the code comment
("Avoid going same direction too many times") clearly intends. -/
theorem smartMove_stuck_never_perpendicular :
    (∀ choices : List Nat, (smartRun {} choices).stuckCount = 0) ∧
    (smartRun {} [0, 0, 0, 0, 0]).lastDirection = some "up" ∧
    (smartMove (smartRun {} [0, 0, 0, 0, 0]) 0).1 = "up" ∧
    "up" ∉ perpendicularOf "up" := by
  have step : ∀ (st : SmartState) (c : Nat), st.stuckCount = 0 →
      ((smartExecute st c).2).stuckCount = 0 := by
    intro st c h
    unfold smartExecute smartMove
    cases st.lastDirection with
    | none => exact h
    | some d =>
      dsimp only
      rw [if_neg (by omega)]
      exact h
  refine ⟨?_, by decide, by decide, by decide⟩
  intro choices
  unfold smartRun
  have gen : ∀ (cs : List Nat) (st : SmartState), st.stuckCount = 0 →
      (cs.foldl (fun s c => (smartExecute s c).2) st).stuckCount = 0 := by
    intro cs
    induction cs with
    | nil => intro st h; exact h
    | cons c rest ih =>
      intro st h
      rw [List.foldl_cons]
      exact ih _ (step st c h)
  exact gen choices {} rfl

/-! ## Counting MET events (C9) -/

theorem pairMet_mem {c : OAgent} {bs : List OAgent} {e : MetEvent}
    (he : e ∈ pairMet c bs) :
    e.agent1 = c.name ∧ e.agent2 ∈ bs.map (fun x => x.name) := by
  unfold pairMet at he
  rw [List.mem_filterMap] at he
  obtain ⟨b, hb, hfb⟩ := he
  by_cases hd : odist c b = 0
  · rw [if_pos hd] at hfb
    obtain rfl := Option.some.inj hfb
    exact ⟨rfl, List.mem_map_of_mem (fun x => x.name) hb⟩
  · rw [if_neg hd] at hfb
    exact absurd hfb (by simp)

theorem checkInteractions_mem : ∀ {as : List OAgent} {e : MetEvent},
    e ∈ checkInteractions as →
    e.agent1 ∈ as.map (fun x => x.name) ∧ e.agent2 ∈ as.map (fun x => x.name) := by
  intro as
  induction as with
  | nil => intro e he; simp [checkInteractions] at he
  | cons c rest ih =>
    intro e he
    rw [show checkInteractions (c :: rest) = pairMet c rest ++ checkInteractions rest
        from rfl, List.mem_append] at he
    rcases he with he | he
    · obtain ⟨h1, h2⟩ := pairMet_mem he
      exact ⟨by rw [List.map_cons, h1]; exact List.mem_cons_self _ _,
        by rw [List.map_cons]; exact List.mem_cons_of_mem _ h2⟩
    · obtain ⟨h1, h2⟩ := ih he
      exact ⟨by rw [List.map_cons]; exact List.mem_cons_of_mem _ h1,
        by rw [List.map_cons]; exact List.mem_cons_of_mem _ h2⟩

/-- `aboutPair` in propositional form. -/
theorem aboutPair_iff (n1 n2 : String) (e : MetEvent) :
    aboutPair n1 n2 e = true ↔
      (e.agent1 = n1 ∧ e.agent2 = n2) ∨ (e.agent1 = n2 ∧ e.agent2 = n1) := by
  unfold aboutPair
  simp [Bool.or_eq_true, Bool.and_eq_true, beq_iff_eq]

/-- Events of `checkInteractions` never mention an absent name. -/
theorem countP_checkInteractions_zero {as : List OAgent} {n1 n2 : String}
    (h : n1 ∉ as.map (fun x => x.name) ∨ n2 ∉ as.map (fun x => x.name)) :
    (checkInteractions as).countP (aboutPair n1 n2) = 0 := by
  rw [List.countP_eq_zero]
  intro e he hp
  obtain ⟨h1, h2⟩ := checkInteractions_mem he
  rcases (aboutPair_iff n1 n2 e).mp hp with ⟨ha, hb⟩ | ⟨ha, hb⟩ <;>
    rcases h with h | h <;> subst ha <;> subst hb <;> exact h (by assumption)

/-- Events `c` produces all carry `c.name` first, so when `c` is neither
name of the pair the head block contributes nothing. -/
theorem countP_pairMet_zero {c : OAgent} {bs : List OAgent} {n1 n2 : String}
    (h1 : c.name ≠ n1) (h2 : c.name ≠ n2) :
    (pairMet c bs).countP (aboutPair n1 n2) = 0 := by
  rw [List.countP_eq_zero]
  intro e he hp
  obtain ⟨he1, _⟩ := pairMet_mem he
  rcases (aboutPair_iff n1 n2 e).mp hp with ⟨ha, _⟩ | ⟨ha, _⟩
  · exact h1 (he1 ▸ ha)
  · exact h2 (he1 ▸ ha)

/-- The head block of the pair scan logs the co-located pair exactly once:
`c` against the unique later agent named like `t`. -/
theorem countP_pairMet_one : ∀ {bs : List OAgent} {c t : OAgent} {n1 n2 : String},
    ((c.name = n1 ∧ t.name = n2) ∨ (c.name = n2 ∧ t.name = n1)) →
    (bs.map (fun x => x.name)).Nodup →
    c.name ∉ bs.map (fun x => x.name) →
    t ∈ bs → odist c t = 0 →
    (pairMet c bs).countP (aboutPair n1 n2) = 1 := by
  intro bs
  induction bs with
  | nil => intro c t n1 n2 _ _ _ ht _; simp at ht
  | cons d rest ih =>
    intro c t n1 n2 hnames hnd hc ht hcol
    rw [List.map_cons, List.nodup_cons] at hnd
    rw [List.map_cons] at hc
    have hcd : c.name ≠ d.name := fun hh => hc (hh ▸ List.mem_cons_self _ _)
    have hcr : c.name ∉ rest.map (fun x => x.name) :=
      fun hh => hc (List.mem_cons_of_mem _ hh)
    have hct : c.name ≠ t.name := by
      intro hh
      rcases List.mem_cons.mp ht with rfl | htr
      · exact hcd hh
      · exact hcr (hh ▸ List.mem_map_of_mem (fun x => x.name) htr)
    unfold pairMet
    rw [List.filterMap_cons]
    rcases List.mem_cons.mp ht with rfl | htr
    · rw [if_pos hcol]
      rw [List.countP_cons]
      have hpe : aboutPair n1 n2 ⟨c.name, t.name, c.x, c.y⟩ = true := by
        rw [aboutPair_iff]
        rcases hnames with ⟨hn1, hn2⟩ | ⟨hn1, hn2⟩
        · exact Or.inl ⟨hn1, hn2⟩
        · exact Or.inr ⟨hn1, hn2⟩
      rw [if_pos hpe]
      have hzero : (List.filterMap (fun b => if odist c b = 0 then
          some (⟨c.name, b.name, c.x, c.y⟩ : MetEvent) else none) rest).countP
          (aboutPair n1 n2) = 0 := by
        rw [List.countP_eq_zero]
        intro e he hp
        have hpm : e ∈ pairMet c rest := by unfold pairMet; exact he
        obtain ⟨he1, he2⟩ := pairMet_mem hpm
        rcases (aboutPair_iff n1 n2 e).mp hp with ⟨ha, hb⟩ | ⟨ha, hb⟩ <;>
          rcases hnames with ⟨hn1, hn2⟩ | ⟨hn1, hn2⟩
        · exact hnd.1 (by rw [hn2, ← hb]; exact he2)
        · exact hct ((he1.symm.trans ha).trans hn2.symm)
        · exact hct ((he1.symm.trans ha).trans hn2.symm)
        · exact hnd.1 (by rw [hn2, ← hb]; exact he2)
      rw [hzero]
    · have htd : t.name ≠ d.name := by
        intro hh
        exact hnd.1 (hh ▸ List.mem_map_of_mem (fun x => x.name) htr)
      have hstep : (pairMet c rest).countP (aboutPair n1 n2) = 1 :=
        ih hnames hnd.2 hcr htr hcol
      by_cases hd0 : odist c d = 0
      · rw [if_pos hd0, List.countP_cons]
        have hpe : aboutPair n1 n2 ⟨c.name, d.name, c.x, c.y⟩ = false := by
          rw [← Bool.not_eq_true, aboutPair_iff]
          dsimp only
          rintro (⟨ha, hb⟩ | ⟨ha, hb⟩) <;>
            rcases hnames with ⟨hn1, hn2⟩ | ⟨hn1, hn2⟩
          · exact htd (hn2.trans hb.symm)
          · exact hct (ha.trans hn2.symm)
          · exact hct (ha.trans hn2.symm)
          · exact htd (hn2.trans hb.symm)
        rw [hpe]
        simpa [pairMet] using hstep
      · rw [if_neg hd0]
        simpa [pairMet] using hstep

/-- C9: for any two registered agents occupying identical coordinates (in a
registry with unique names, as a dict of agents is), one run of
`check_interactions` logs exactly one MET (`AGENT_INTERACTED`) event for
that unordered pair — never zero, never more than one.  `simulate_world`
runs `check_interactions` once per tick, so this is one event per tick for
as long as they stay co-located. -/
theorem checkInteractions_met_once : ∀ (as : List OAgent) (a b : OAgent),
    (as.map (fun x => x.name)).Nodup →
    a ∈ as → b ∈ as → a.name ≠ b.name → a.x = b.x → a.y = b.y →
    (checkInteractions as).countP (aboutPair a.name b.name) = 1 := by
  intro as
  induction as with
  | nil => intro a b _ ha _ _ _ _; simp at ha
  | cons c rest ih =>
    intro a b hnd ha hb hab hx hy
    rw [List.map_cons, List.nodup_cons] at hnd
    rw [show checkInteractions (c :: rest) = pairMet c rest ++ checkInteractions rest
        from rfl, List.countP_append]
    rcases List.mem_cons.mp ha with rfl | har
    · rcases List.mem_cons.mp hb with rfl | hbr
      · exact absurd rfl hab
      · rw [countP_pairMet_one (Or.inl ⟨rfl, rfl⟩) hnd.2 hnd.1 hbr
          (by simp [odist, hx, hy])]
        rw [countP_checkInteractions_zero (Or.inl hnd.1)]
    · rcases List.mem_cons.mp hb with rfl | hbr
      · rw [countP_pairMet_one (Or.inr ⟨rfl, rfl⟩) hnd.2 hnd.1 har
          (by simp [odist, hx, hy])]
        rw [countP_checkInteractions_zero (Or.inr hnd.1)]
      · have hca : c.name ≠ a.name :=
          fun hh => hnd.1 (hh ▸ List.mem_map_of_mem (fun x => x.name) har)
        have hcb : c.name ≠ b.name :=
          fun hh => hnd.1 (hh ▸ List.mem_map_of_mem (fun x => x.name) hbr)
        rw [countP_pairMet_zero hca hcb, ih a b hnd.2 har hbr hab hx hy]

/-- Witness for C9: two agents registered at the default dataclass position
`(0, 0)` produce exactly one MET event per interaction check. -/
theorem checkInteractions_met_once_witness :
    (([{ name := "Koolie", personality := "explorer" },
       { name := "Scout-7", personality := "gatherer" }] :
        List OAgent).map (fun x => x.name)).Nodup ∧
    (checkInteractions
      [{ name := "Koolie", personality := "explorer" },
       { name := "Scout-7", personality := "gatherer" }]).countP
      (aboutPair "Koolie" "Scout-7") = 1 :=
  ⟨by decide,
   checkInteractions_met_once
     [{ name := "Koolie", personality := "explorer" },
      { name := "Scout-7", personality := "gatherer" }]
     { name := "Koolie", personality := "explorer" }
     { name := "Scout-7", personality := "gatherer" }
     (by decide) (by decide) (by decide) (by decide) rfl rfl⟩

/-- Witness for C1 at a concrete world and action sequence. -/
theorem wallet_nonneg_econRun_witness :
    WorldOK { agents := [{ name := "Koolie", personality := "explorer", x := 6, y := 4,
                           wallet := 100, inventory := [⟨.potion, 1, "Koolie", 20⟩] },
                         { name := "Scout-7", personality := "gatherer", x := 6, y := 4,
                           wallet := 120 }],
              territories := [{ x := 6, y := 4, owner := "Scout-7", name := "Scout-7 Land" }],
              marketPrices := initMarket } ∧
    WalletsNonneg (econRun
      { agents := [{ name := "Koolie", personality := "explorer", x := 6, y := 4,
                     wallet := 100, inventory := [⟨.potion, 1, "Koolie", 20⟩] },
                   { name := "Scout-7", personality := "gatherer", x := 6, y := 4,
                     wallet := 120 }],
        territories := [{ x := 6, y := 4, owner := "Scout-7", name := "Scout-7 Land" }],
        marketPrices := initMarket }
      [.trade "Koolie" "Scout-7" (-5), .tax "Koolie", .battle "Koolie" "Scout-7" 10 1]) :=
  ⟨by decide, wallet_nonneg_econRun _ _ (by decide) (by decide)⟩
